import Mathlib

/-!
Verification development for the gpui markdown preview program.

The repository's visible source is `src/main.rs`: the `MarkdownView`
consumer, its asynchronous parse-and-deliver flow (`MarkdownView::from`),
and its render pass.  The `markdown_preview` module it calls
(`parse_markdown`, `render_markdown_block`, `ParsedMarkdown`,
`RenderContext`) is part of the repository but its source is not
provided; those definitions are modelled from the specification, each
marked `Modelled from the spec:` in its doc comment.
-/

set_option maxHeartbeats 1000000

/-- Column alignment of a table column, derived from colon placement in
the separator line. -/
inductive ColumnAlignment where
  | default
  | left
  | right
  | center
deriving Repr, DecidableEq

/-- Modelled from the spec: an inline span, one node of the inline
markup of a block ("PlainText(string), Emphasis(children),
Strong(children), CodeSpan(literal text), Link(display children,
destination URL, optional title), Image(alt text, URL, optional title),
Autolink(URL), LineBreak(hard/soft flag)"). -/
inductive InlineSpan where
  | plainText (s : String)
  | emphasis (children : List InlineSpan)
  | strong (children : List InlineSpan)
  | codeSpan (literal : String)
  | link (display : List InlineSpan) (url : String) (title : Option String)
  | image (alt : String) (url : String) (title : Option String)
  | autolink (url : String)
  | lineBreak (hard : Bool)
deriving Repr

/-- Line range a block was derived from, for diagnostics and
source-mapping. -/
structure SourceRange where
  startLine : Nat
  endLine : Nat
deriving Repr, DecidableEq

/-- Modelled from the spec: a block-level node of the document model.
Variants: Heading, Paragraph, List (items are sequences of blocks),
Table, CodeBlock, Blockquote, HorizontalRule, and the Unparsed/Raw
fallback that guarantees no input is silently dropped. -/
inductive Block where
  | heading (range : SourceRange) (level : Nat) (content : List InlineSpan)
  | paragraph (range : SourceRange) (content : List InlineSpan)
  | list (range : SourceRange) (ordered : Bool) (startNum : Nat)
      (items : List (List Block)) (depth : Nat)
  | table (range : SourceRange) (alignments : List ColumnAlignment)
      (rows : List (List (List InlineSpan)))
  | codeBlock (range : SourceRange) (language : Option String) (literal : String)
  | blockquote (range : SourceRange) (children : List Block)
  | horizontalRule (range : SourceRange)
  | raw (range : SourceRange) (text : String)
deriving Repr

/-- Modelled from the spec: the document root, an ordered sequence of
top-level blocks; order is significant. -/
structure ParsedMarkdown where
  children : List Block
deriving Repr

/-! ## Inline tokenizer (modelled from the spec, section 4.1) -/

/-- The backtick character, written by code point. -/
def tickChar : Char := Char.ofNat 96

/-- Length of the leading run of the character `c`, and the remainder
after it. -/
def takeRun (c : Char) : List Char → Nat × List Char
  | [] => (0, [])
  | x :: xs =>
    if x = c then
      let (n, r) := takeRun c xs
      (n + 1, r)
    else (0, x :: xs)

/-- Split `cs` at the first maximal run of backticks of length exactly
`n`: returns the content before the run and the remainder after it.
`fuel` bounds the scan; it is always called with fuel at least the
length of `cs`. -/
def splitAtTickRun (fuel n : Nat) (cs : List Char) : Option (List Char × List Char) :=
  match fuel, cs with
  | 0, _ => none
  | _, [] => none
  | f + 1, c :: rest =>
    if c = tickChar then
      let (m, after) := takeRun tickChar (c :: rest)
      if m = n then some ([], after)
      else
        match splitAtTickRun f n after with
        | some (before, tail) => some (List.replicate m tickChar ++ before, tail)
        | none => none
    else
      match splitAtTickRun f n rest with
      | some (before, tail) => some (c :: before, tail)
      | none => none

/-- Split `cs` at the first run of the delimiter character `marker` of
length at least `need`: returns the content before the run and the
remainder after dropping `need` delimiter characters. -/
def splitAtDelimRun (fuel : Nat) (marker : Char) (need : Nat) (cs : List Char) :
    Option (List Char × List Char) :=
  match fuel, cs with
  | 0, _ => none
  | _, [] => none
  | f + 1, c :: rest =>
    if c = marker then
      let (m, after) := takeRun marker (c :: rest)
      if need ≤ m then some ([], List.replicate (m - need) marker ++ after)
      else
        match splitAtDelimRun f marker need after with
        | some (before, tail) => some (List.replicate m marker ++ before, tail)
        | none => none
    else
      match splitAtDelimRun f marker need rest with
      | some (before, tail) => some (c :: before, tail)
      | none => none

/-- Split `cs` at the first occurrence of the character `target`. -/
def splitAtChar (fuel : Nat) (target : Char) (cs : List Char) :
    Option (List Char × List Char) :=
  match fuel, cs with
  | 0, _ => none
  | _, [] => none
  | f + 1, c :: rest =>
    if c = target then some ([], rest)
    else
      match splitAtChar f target rest with
      | some (before, tail) => some (c :: before, tail)
      | none => none

/-- Parse the `url "title"` body found between the parentheses of a
link or image: the first whitespace-free word is the URL, a following
double-quoted run is the title. -/
def parseLinkBody (cs : List Char) : String × Option String :=
  let trimmed := cs.dropWhile Char.isWhitespace
  let url := trimmed.takeWhile (fun c => ¬ c.isWhitespace)
  let afterUrl := (trimmed.dropWhile (fun c => ¬ c.isWhitespace)).dropWhile Char.isWhitespace
  let title :=
    match afterUrl with
    | [] => none
    | q :: body =>
      if q = Char.ofNat 34 then
        some (String.mk (body.takeWhile (fun c => c ≠ Char.ofNat 34)))
      else none
  (String.mk url, title)

/-- Does `cs` start with the characters of `w`? -/
def startsWithChars (w : List Char) (cs : List Char) : Bool :=
  match w, cs with
  | [], _ => true
  | _ :: _, [] => false
  | a :: ws, c :: rest => a = c && startsWithChars ws rest

/-- Recognized autolink schemes. -/
def urlSchemes : List (List Char) :=
  ["http://".toList, "https://".toList]

/-- Does `cs` start with a recognized URL scheme? -/
def startsWithScheme (cs : List Char) : Bool :=
  urlSchemes.any (fun w => startsWithChars w cs)

/-- Flush pending literal characters (held in reverse) as a PlainText
span. -/
def flushAcc (acc : List Char) : List InlineSpan :=
  if acc.isEmpty then [] else [InlineSpan.plainText (String.mk acc.reverse)]

/-- Count of trailing space characters of the reversed accumulator. -/
def leadingSpaces : List Char → Nat
  | [] => 0
  | c :: rest => if c = ' ' then leadingSpaces rest + 1 else 0

/-- Modelled from the spec: the inline tokenizer scan.  A single
left-to-right pass over the character list; backtick runs open code
spans closing at an equal-length run, `*`/`_` runs of length two or
more open Strong and single ones open Emphasis with the same marker
required to close, bracketed constructs are recognized greedily and
fall back to literal text when malformed, bare URLs with a recognized
scheme become autolinks, a backslash before a line end or two or more
trailing spaces produce a hard line break, and a plain line end is a
soft break rendered as whitespace.  Unclosed delimiters degrade to
literal text; the scan never fails and always terminates with full
coverage.  `fuel` strictly exceeds the number of remaining characters
whenever the tokenizer is entered from `tokenizeInline`. -/
def scanInline : Nat → List Char → List Char → List InlineSpan
  | 0, cs, acc =>
    flushAcc acc ++ (if cs.isEmpty then [] else [InlineSpan.plainText (String.mk cs)])
  | _ + 1, [], acc => flushAcc acc
  | f + 1, c :: cs, acc =>
    if c = tickChar then
      let (n, after) := takeRun tickChar (c :: cs)
      match splitAtTickRun f n after with
      | some (content, rest) =>
          flushAcc acc ++ [InlineSpan.codeSpan (String.mk content)] ++ scanInline f rest []
      | none => scanInline f cs (c :: acc)
    else if c = '*' ∨ c = '_' then
      let (m, after) := takeRun c (c :: cs)
      let need := if 2 ≤ m then 2 else 1
      match splitAtDelimRun f c need after with
      | some (inner, rest) =>
          let childSpans := scanInline f inner []
          let span :=
            if 2 ≤ m then InlineSpan.strong childSpans else InlineSpan.emphasis childSpans
          flushAcc acc ++ [span] ++ scanInline f rest []
      | none => scanInline f cs (c :: acc)
    else if c = '!' then
      match cs with
      | '[' :: afterBracket =>
        match splitAtChar f ']' afterBracket with
        | some (alt, '(' :: afterParen) =>
          match splitAtChar f ')' afterParen with
          | some (body, rest) =>
              let (url, title) := parseLinkBody body
              flushAcc acc ++ [InlineSpan.image (String.mk alt) url title] ++ scanInline f rest []
          | none => scanInline f cs (c :: acc)
        | _ => scanInline f cs (c :: acc)
      | _ => scanInline f cs (c :: acc)
    else if c = '[' then
      match splitAtChar f ']' cs with
      | some (display, '(' :: afterParen) =>
        match splitAtChar f ')' afterParen with
        | some (body, rest) =>
            let (url, title) := parseLinkBody body
            flushAcc acc ++ [InlineSpan.link (scanInline f display []) url title]
              ++ scanInline f rest []
        | none => scanInline f cs (c :: acc)
      | _ => scanInline f cs (c :: acc)
    else if startsWithScheme (c :: cs) then
      let url := (c :: cs).takeWhile (fun ch => ¬ ch.isWhitespace)
      let rest := (c :: cs).dropWhile (fun ch => ¬ ch.isWhitespace)
      flushAcc acc ++ [InlineSpan.autolink (String.mk url)] ++ scanInline f rest []
    else if c = '\\' then
      match cs with
      | '\n' :: rest => flushAcc acc ++ [InlineSpan.lineBreak true] ++ scanInline f rest []
      | _ => scanInline f cs (c :: acc)
    else if c = '\n' then
      if 2 ≤ leadingSpaces acc then
        flushAcc (acc.dropWhile (fun ch => ch = ' '))
          ++ [InlineSpan.lineBreak true] ++ scanInline f cs []
      else
        scanInline f cs (' ' :: acc)
    else
      scanInline f cs (c :: acc)

/-- Modelled from the spec: tokenize a text run into an ordered
sequence of inline spans covering the entire run. -/
def tokenizeInline (s : String) : List InlineSpan :=
  scanInline (s.length + 1) s.toList []

/-! ## Block parser (modelled from the spec, section 4.2) -/

set_option linter.unusedVariables false

/-- Leading space characters removed. -/
def dropIndent (cs : List Char) : List Char :=
  cs.dropWhile (fun c => c = ' ')

/-- Width of the leading run of spaces. -/
def indentWidth (cs : List Char) : Nat :=
  (cs.takeWhile (fun c => c = ' ')).length

/-- A line that is empty or whitespace only. -/
def blankLine (s : String) : Bool :=
  s.trim = ""

/-- Opening code fence: a line of three or more backticks or tildes;
returns the fence character, its length, and the trimmed info text
after it (the language tag). -/
def fenceOpen (s : String) : Option (Char × Nat × String) :=
  match dropIndent s.toList with
  | [] => none
  | c :: tail =>
    if c = tickChar ∨ c = '~' then
      let (n, rest) := takeRun c (c :: tail)
      if 3 ≤ n then some (c, n, (String.mk rest).trim) else none
    else none

/-- Closing code fence: a run of the same character, of length at least
the opening run, with nothing else on the line. -/
def fenceCloses (ch : Char) (n : Nat) (s : String) : Bool :=
  let (m, rest) := takeRun ch (dropIndent s.toList)
  n ≤ m && (String.mk rest).trim = ""

/-- Heading line: one to six hash marks followed by whitespace; returns
the level and the trimmed heading text. -/
def headingLevel (s : String) : Option (Nat × String) :=
  let (k, rest) := takeRun '#' s.toList
  if 1 ≤ k ∧ k ≤ 6 then
    match rest with
    | c :: tail => if c = ' ' then some (k, (String.mk tail).trim) else none
    | [] => none
  else none

/-- Horizontal rule line: solely three or more of the same character
among asterisk, dash and underscore, ignoring interior whitespace. -/
def hrLine (s : String) : Bool :=
  let cs := s.toList.filter (fun c => ¬ c.isWhitespace)
  match cs with
  | [] => false
  | c :: rest =>
    (c = '*' ∨ c = '-' ∨ c = '_') && 3 ≤ cs.length && rest.all (fun x => x = c)

/-- Blockquote line: the first non-space character is a greater-than
sign. -/
def bqLine (s : String) : Bool :=
  match dropIndent s.toList with
  | c :: _ => c = '>'
  | [] => false

/-- Strip the blockquote marker and one following space, giving the
nested document line. -/
def bqStrip (s : String) : String :=
  match dropIndent s.toList with
  | c :: tail =>
    if c = '>' then
      match tail with
      | sp :: more => if sp = ' ' then String.mk more else String.mk tail
      | [] => ""
    else s
  | [] => s

/-- List marker: a bullet among asterisk, plus, dash, or a number
followed by a period or closing parenthesis, then whitespace.  Returns
(ordered flag, starting number, content column). -/
def listMarker (s : String) : Option (Bool × Nat × Nat) :=
  let cs := s.toList
  let ind := indentWidth cs
  match cs.drop ind with
  | [] => none
  | c :: tail =>
    if c = '*' ∨ c = '+' ∨ c = '-' then
      match tail with
      | sp :: _ => if sp = ' ' then some (false, 1, ind + 2) else none
      | [] => none
    else if c.isDigit then
      let digits := (c :: tail).takeWhile Char.isDigit
      match (c :: tail).dropWhile Char.isDigit with
      | p :: sp :: _ =>
        if (p = '.' ∨ p = ')') ∧ sp = ' ' then
          some (true, ((String.mk digits).toNat?.getD 1), ind + digits.length + 2)
        else none
      | _ => none
    else none

/-- Does the string contain the character `c`? -/
def containsChar (c : Char) (s : String) : Bool :=
  s.toList.any (fun x => x = c)

/-- Table separator line: only dashes, colons, pipes and whitespace,
with at least one dash. -/
def sepLine (s : String) : Bool :=
  let cs := s.toList.filter (fun c => ¬ c.isWhitespace)
  !cs.isEmpty && cs.all (fun c => c = '-' ∨ c = ':' ∨ c = '|') && cs.any (fun c => c = '-')

/-- Split a table line into trimmed cells, discarding the empty edge
cells produced by outer pipes. -/
def splitCells (s : String) : List String :=
  let parts := (s.splitOn "|").map String.trim
  let parts := if parts.head? == some "" then parts.drop 1 else parts
  if parts.getLast? == some "" then parts.dropLast else parts

/-- Column alignment from colon placement in a separator cell. -/
def alignOf (cell : String) : ColumnAlignment :=
  let cs := cell.toList
  let l := cs.head? == some ':'
  let r := cs.getLast? == some ':'
  if l && r then .center else if r then .right else if l then .left else .default

/-- Cells truncated to the header width and padded with empty cells:
the spec's documented table normalization. -/
def padTo (w : Nat) (cells : List String) : List String :=
  cells.take w ++ List.replicate (w - cells.length) ""

mutual

/-- Modelled from the spec: the block parser.  Consumes the document
line by line; per line group the recognition order is fenced code
block, heading, horizontal rule, blockquote (recursively parsed after
stripping the marker), list item (continuations and deeper-indented
nested lists belong to the item), table (a pipe line followed by a
separator line), and paragraph as the default; blank lines separate
blocks.  Each block's textual payload goes through the inline
tokenizer except code block literals.  The fuel argument only bounds
the recursion; on exhaustion the remaining input becomes a single raw
fallback block, so the parser never fails. -/
def parseBlocks : Nat → Nat → Nat → List String → List Block
  | 0, _, lineNo, ls =>
    if ls.isEmpty then []
    else [Block.raw ⟨lineNo, lineNo + ls.length - 1⟩ (String.intercalate "\n" ls)]
  | _ + 1, _, _, [] => []
  | f + 1, depth, lineNo, l :: rest =>
    if blankLine l then parseBlocks f depth (lineNo + 1) rest
    else
      match fenceOpen l with
      | some (ch, n, tag) =>
        let body := rest.takeWhile (fun s => ¬ fenceCloses ch n s)
        let after := rest.dropWhile (fun s => ¬ fenceCloses ch n s)
        let consumed := 1 + body.length + (if after.isEmpty then 0 else 1)
        Block.codeBlock ⟨lineNo, lineNo + consumed - 1⟩
            (if tag = "" then none else some tag)
            (String.intercalate "\n" body)
          :: parseBlocks f depth (lineNo + consumed) (after.drop 1)
      | none =>
        match headingLevel l with
        | some (k, txt) =>
          Block.heading ⟨lineNo, lineNo⟩ k (tokenizeInline txt)
            :: parseBlocks f depth (lineNo + 1) rest
        | none =>
          if hrLine l then
            Block.horizontalRule ⟨lineNo, lineNo⟩ :: parseBlocks f depth (lineNo + 1) rest
          else if bqLine l then
            let grp := (l :: rest).takeWhile bqLine
            let after := (l :: rest).dropWhile bqLine
            Block.blockquote ⟨lineNo, lineNo + grp.length - 1⟩
                (parseBlocks f depth lineNo (grp.map bqStrip))
              :: parseBlocks f depth (lineNo + grp.length) after
          else
            match listMarker l with
            | some (ordered, startNum, _) =>
              let inList : String → Bool := fun s =>
                (listMarker s).isSome || (!blankLine s && 1 ≤ indentWidth s.toList)
              let grp := (l :: rest).takeWhile inList
              let after := (l :: rest).dropWhile inList
              Block.list ⟨lineNo, lineNo + grp.length - 1⟩ ordered startNum
                  (splitItems f depth lineNo grp) depth
                :: parseBlocks f depth (lineNo + grp.length) after
            | none =>
              if containsChar '|' l
                  && (match rest.head? with | some s => sepLine s | none => false) then
                let w := (splitCells l).length
                let aligns := (padTo w (splitCells (rest.headD ""))).map alignOf
                let isRow : String → Bool := fun s => containsChar '|' s && !blankLine s
                let dataLines := (rest.drop 1).takeWhile isRow
                let after := (rest.drop 1).dropWhile isRow
                let rows := (l :: dataLines).map
                  (fun s => (padTo w (splitCells s)).map tokenizeInline)
                Block.table ⟨lineNo, lineNo + 1 + dataLines.length⟩ aligns rows
                  :: parseBlocks f depth (lineNo + 2 + dataLines.length) after
              else
                let para : String → Bool := fun s =>
                  !blankLine s && (fenceOpen s).isNone && (headingLevel s).isNone
                    && !hrLine s && !bqLine s && (listMarker s).isNone
                let grp := (l :: rest).takeWhile para
                let after := (l :: rest).dropWhile para
                if grp.isEmpty then
                  Block.raw ⟨lineNo, lineNo⟩ l :: parseBlocks f depth (lineNo + 1) rest
                else
                  Block.paragraph ⟨lineNo, lineNo + grp.length - 1⟩
                      (tokenizeInline (String.intercalate "\n" grp))
                    :: parseBlocks f depth (lineNo + grp.length) after

/-- Split a run of list lines into items.  Each item starts at a
marker line; lines without a marker, and marker lines indented deeper
than the item's marker, are continuations of the item.  The item's
content lines are dedented to the marker's content column and
recursively block-parsed at the next nesting depth. -/
def splitItems : Nat → Nat → Nat → List String → List (List Block)
  | 0, _, _, _ => []
  | _ + 1, _, _, [] => []
  | f + 1, depth, lineNo, l :: rest =>
    match listMarker l with
    | some (_, _, col) =>
      let ind := indentWidth l.toList
      let belongs : String → Bool := fun s =>
        match listMarker s with
        | some _ => ind < indentWidth s.toList
        | none => true
      let cont := rest.takeWhile belongs
      let after := rest.dropWhile belongs
      let contentLines :=
        String.mk (l.toList.drop col) :: cont.map (fun s => String.mk (s.toList.drop col))
      parseBlocks f (depth + 1) lineNo contentLines
        :: splitItems f depth (lineNo + 1 + cont.length) after
    | none => splitItems f depth (lineNo + 1) rest

end

/-- Modelled from the spec: the parsing entry point.  Takes the
document source text, an optional source path for relative-link
resolution, and an optional language registry for code-block tagging,
and produces a ParsedMarkdown; it never fails for any input string.
The fuel handed to `parseBlocks` exceeds any possible recursion depth
for the input; exhaustion would still yield a document via the raw
fallback block. -/
def parse_markdown (text : String) (path : Option String)
    (registry : Option (List String)) : ParsedMarkdown :=
  let ls := text.splitOn "\n"
  { children := parseBlocks (text.length + ls.length + 2) 0 0 ls }

/-! ## Render context and block renderer (modelled from the spec, section 4.4) -/

/-- Modelled from the spec: the mutable render context, created fresh
per render pass.  Tracks the current list nesting depth, the ordered
list counters per depth (head is the innermost list), and the base URL
for resolving relative references. -/
structure RenderContext where
  listDepth : Nat
  orderedCounters : List Nat
  baseUrl : Option String
deriving Repr

/-- A fresh render context, as built at the start of a render pass. -/
def RenderContext.new : RenderContext :=
  { listDepth := 0, orderedCounters := [], baseUrl := none }

/-- Modelled from the spec: a visual primitive, one per document-model
block; the renderer dispatches on the block variant. -/
inductive Primitive where
  | headingPrim (level : Nat) (content : List InlineSpan)
  | paragraphPrim (content : List InlineSpan)
  | listPrim (depth : Nat) (items : List (String × List Primitive))
  | tablePrim (alignments : List ColumnAlignment) (rows : List (List (List InlineSpan)))
  | codePrim (language : Option String) (literal : String)
  | quotePrim (children : List Primitive)
  | rulePrim
  | rawPrim (text : String)
deriving Repr

mutual

/-- Modelled from the spec: render one block into one visual primitive
(recursively, one per nested block), threading the mutable render
context.  Ordered list markers come from the per-depth counter,
incremented per item and reset when a new list starts. -/
def render_markdown_block : Block → RenderContext → Primitive × RenderContext
  | Block.heading _ lv content, ctx => (Primitive.headingPrim lv content, ctx)
  | Block.paragraph _ content, ctx => (Primitive.paragraphPrim content, ctx)
  | Block.list _ ordered startNum items _, ctx =>
    let inner : RenderContext :=
      { ctx with listDepth := ctx.listDepth + 1,
                 orderedCounters := startNum :: ctx.orderedCounters }
    let (rendered, after) := renderListItems ordered items inner
    (Primitive.listPrim ctx.listDepth rendered,
      { after with listDepth := ctx.listDepth,
                   orderedCounters := after.orderedCounters.tail })
  | Block.table _ aligns rows, ctx => (Primitive.tablePrim aligns rows, ctx)
  | Block.codeBlock _ lang lit, ctx => (Primitive.codePrim lang lit, ctx)
  | Block.blockquote _ children, ctx =>
    let (ps, after) := renderNested children ctx
    (Primitive.quotePrim ps, after)
  | Block.horizontalRule _, ctx => (Primitive.rulePrim, ctx)
  | Block.raw _ text, ctx => (Primitive.rawPrim text, ctx)
termination_by b _ => sizeOf b

/-- Render the nested blocks of a container, in order, threading the
context. -/
def renderNested : List Block → RenderContext → List Primitive × RenderContext
  | [], ctx => ([], ctx)
  | b :: bs, ctx =>
    let (p, ctx1) := render_markdown_block b ctx
    let (ps, ctx2) := renderNested bs ctx1
    (p :: ps, ctx2)
termination_by bs _ => sizeOf bs

/-- Render list items in order: each item's marker is taken from the
innermost ordered counter (or a bullet), the counter is incremented
per item, and the item's blocks are rendered recursively. -/
def renderListItems : Bool → List (List Block) → RenderContext →
    List (String × List Primitive) × RenderContext
  | _, [], ctx => ([], ctx)
  | ordered, item :: rest, ctx =>
    let counter := ctx.orderedCounters.headD 1
    let marker := if ordered then toString counter ++ "." else "•"
    let (ps, ctx1) := renderNested item ctx
    let ctx2 : RenderContext :=
      { ctx1 with orderedCounters :=
          match ctx1.orderedCounters with
          | [] => []
          | c :: cs => (c + 1) :: cs }
    let (more, ctx3) := renderListItems ordered rest ctx2
    ((marker, ps) :: more, ctx3)
termination_by _ items _ => sizeOf items

end

/-! ## The consumer view (from src/main.rs) -/

/-- The consumer state of `src/main.rs`: the raw source text, the
optionally delivered parsed document, and the optionally in-flight
parse task (a task is identified by a numeric id in this model). -/
structure MarkdownView where
  raw_text : String
  contents : Option ParsedMarkdown
  parsing_markdown_task : Option Nat
deriving Repr

/-- The view value returned synchronously by `MarkdownView::from` in
`src/main.rs` (named `fromText` because `from` is a reserved word):
the raw text is the supplied text, no contents yet, and the freshly
spawned parse task is stored. -/
def MarkdownView.fromText (text : String) (taskId : Nat) : MarkdownView :=
  { raw_text := text, contents := none, parsing_markdown_task := some taskId }

/-- The update closure run on parse completion in `MarkdownView::from`:
it takes (clears) the parse task and stores the parsed contents. -/
def completeParse (v : MarkdownView) (content : ParsedMarkdown) : MarkdownView :=
  { v with parsing_markdown_task := none, contents := some content }

/-- One step of the task spawned by `MarkdownView::from`: the
background parse of the text, then the single delivery update. -/
inductive TaskStep where
  | bgParse
  | deliver
deriving Repr, DecidableEq

/-- The spawned task's script, in source order: run the background
parse, then deliver the result to the view. -/
def taskScript : List TaskStep := [TaskStep.bgParse, TaskStep.deliver]

/-- Which steps of the task write the view's `contents` field. -/
def stepWritesContents : TaskStep → Bool
  | TaskStep.bgParse => false
  | TaskStep.deliver => true

/-- Effect of each task step on the view.  The background parse runs
off the view and leaves it untouched; the delivery step applies the
update closure with the parse result of the captured text. -/
def applyTaskStep (text : String) : TaskStep → MarkdownView → MarkdownView
  | TaskStep.bgParse, v => v
  | TaskStep.deliver, v => completeParse v (parse_markdown text none none)

/-- States a single view can pass through: constructed by
`MarkdownView::from`, then updated by the task's completion step. -/
inductive ViewReachable : MarkdownView → Prop where
  | constructed (text : String) (tid : Nat) :
      ViewReachable (MarkdownView.fromText text tid)
  | completed (v : MarkdownView) (content : ParsedMarkdown) :
      ViewReachable v → ViewReachable (completeParse v content)

/-! ## The render pass (from src/main.rs, impl Render for MarkdownView) -/

/-- The element returned by the render pass: a bare empty div when no
contents have been delivered, or the markdown preview element holding
one primitive per top-level block (the div wrappers of `main.rs` are
abstracted into the element). -/
inductive RenderedElement where
  | emptyDiv
  | markdownPreview (children : List Primitive)
deriving Repr

/-- Number of block primitives carried by the rendered element, i.e.
how many times `render_markdown_block` was invoked at the top level. -/
def renderedBlockPrimCount : RenderedElement → Nat
  | RenderedElement.emptyDiv => 0
  | RenderedElement.markdownPreview ps => ps.length

/-- The iteration of `MarkdownView::render` over `parsed.children`:
each child, in sequence order, goes through one call of
`render_markdown_block` with the render context threaded through. -/
def renderChildren : List Block → RenderContext → List Primitive × RenderContext
  | [], ctx => ([], ctx)
  | b :: bs, ctx =>
    ((render_markdown_block b ctx).1
        :: (renderChildren bs (render_markdown_block b ctx).2).1,
      (renderChildren bs (render_markdown_block b ctx).2).2)

/-- The render context reached after the first `i` blocks of the
iteration. -/
def ctxAfter : List Block → RenderContext → Nat → RenderContext
  | _, ctx, 0 => ctx
  | [], ctx, _ + 1 => ctx
  | b :: bs, ctx, i + 1 => ctxAfter bs (render_markdown_block b ctx).2 i

/-- The render pass of `src/main.rs`: with no contents it returns a
bare empty div; otherwise it creates a fresh `RenderContext` and maps
every top-level block through `render_markdown_block`.  The second
component is the view state after the pass (the pass mutates nothing
and retains no context: the view has no context field). -/
def MarkdownView.render (v : MarkdownView) : RenderedElement × MarkdownView :=
  match v.contents with
  | none => (RenderedElement.emptyDiv, v)
  | some parsed =>
    let ctx := RenderContext.new
    (RenderedElement.markdownPreview (renderChildren parsed.children ctx).1, v)

/-! ## The asynchronous parse scheduler (from src/main.rs with gpui
spawn/update semantics) -/

/-- An in-flight parse request: the id of the view it will deliver to
and the text it parses. -/
structure ParseRequest where
  target : Nat
  text : String
deriving Repr, DecidableEq

/-- The scheduler state: the live views (id-keyed), the in-flight
parse requests, and the next fresh view id. -/
structure Scheduler where
  views : List (Nat × MarkdownView)
  pending : List ParseRequest
  nextId : Nat

/-- The initial scheduler: no views, no in-flight parses. -/
def Scheduler.init : Scheduler :=
  { views := [], pending := [], nextId := 0 }

/-- Requesting a parse: `cx.new_view` plus `MarkdownView::from` create
a fresh view owning its newly spawned parse task. -/
def requestParse (s : Scheduler) (text : String) : Scheduler :=
  { views := (s.nextId, MarkdownView.fromText text s.nextId) :: s.views,
    pending := { target := s.nextId, text := text } :: s.pending,
    nextId := s.nextId + 1 }

/-- Look up a live view by id. -/
def lookupView (s : Scheduler) (id : Nat) : Option MarkdownView :=
  (s.views.find? (fun p => p.1 == id)).map Prod.snd

/-- Apply the delivery update to the request's target view. -/
def deliverResult (views : List (Nat × MarkdownView)) (r : ParseRequest) :
    List (Nat × MarkdownView) :=
  views.map (fun p =>
    if p.1 == r.target then (p.1, completeParse p.2 (parse_markdown r.text none none))
    else p)

/-- Completion of an in-flight parse: the request leaves the pending
set, and `markdown_view.update` either applies the update closure to
the target view (ok) or reports that the view no longer exists as the
explicit error value returned by the task. -/
def finishParse (s : Scheduler) (r : ParseRequest) : Scheduler × Except String Unit :=
  match lookupView s r.target with
  | none =>
    ({ s with pending := s.pending.filter (fun q => q.target != r.target) },
      Except.error "view released")
  | some _ =>
    ({ s with views := deliverResult s.views r,
              pending := s.pending.filter (fun q => q.target != r.target) },
      Except.ok ())

/-- Dropping a consumer view.  Its in-flight request is left to run;
on completion it will observe the view is gone and discard its result
(the branch where gpui instead cancels the dropped task is the same as
the completion step never firing). -/
def dropView (s : Scheduler) (id : Nat) : Scheduler :=
  { s with views := s.views.filter (fun p => p.1 != id) }

/-- One scheduler step: a new parse request, the completion of an
in-flight parse, or the drop of a consumer view. -/
inductive SchedStep : Scheduler → Scheduler → Prop where
  | request (s : Scheduler) (text : String) : SchedStep s (requestParse s text)
  | finish (s : Scheduler) (r : ParseRequest) (h : r ∈ s.pending) :
      SchedStep s (finishParse s r).1
  | drop (s : Scheduler) (id : Nat) : SchedStep s (dropView s id)

/-- Reflexive-transitive closure of scheduler steps. -/
inductive ReachableFrom : Scheduler → Scheduler → Prop where
  | refl (s : Scheduler) : ReachableFrom s s
  | step (s t u : Scheduler) : ReachableFrom s t → SchedStep t u → ReachableFrom s u

/-- Scheduler states reachable from the initial state. -/
def SchedReachable (s : Scheduler) : Prop :=
  ReachableFrom Scheduler.init s

/-- Freshness invariant: every live view id and every pending request
target is below the next fresh id. -/
def FreshIds (s : Scheduler) : Prop :=
  (∀ p ∈ s.views, p.1 < s.nextId) ∧ (∀ r ∈ s.pending, r.target < s.nextId)

/-- All bookkeeping the scheduler maintains for one view id: every
live entry for the id carries the given raw text and contents that are
either undelivered or exactly the parse of that text, and every
pending request for the id carries that text. -/
def TracksId (id : Nat) (text : String) (s : Scheduler) : Prop :=
  (∀ p ∈ s.views, p.1 = id → p.2.raw_text = text) ∧
  (∀ p ∈ s.views, p.1 = id →
    (p.2.contents = none ∨ p.2.contents = some (parse_markdown text none none))) ∧
  (∀ r ∈ s.pending, r.target = id → r.text = text)

/-! ## Helper lemmas -/

theorem completeParse_raw_text (v : MarkdownView) (c : ParsedMarkdown) :
    (completeParse v c).raw_text = v.raw_text := rfl

theorem requestParse_views (s : Scheduler) (text : String) :
    (requestParse s text).views =
      (s.nextId, MarkdownView.fromText text s.nextId) :: s.views := rfl

theorem requestParse_pending (s : Scheduler) (text : String) :
    (requestParse s text).pending =
      ({ target := s.nextId, text := text } : ParseRequest) :: s.pending := rfl

theorem requestParse_nextId (s : Scheduler) (text : String) :
    (requestParse s text).nextId = s.nextId + 1 := rfl

theorem finishParse_nextId (s : Scheduler) (r : ParseRequest) :
    (finishParse s r).1.nextId = s.nextId := by
  cases hl : lookupView s r.target <;> simp [finishParse, hl]

theorem finishParse_pending (s : Scheduler) (r : ParseRequest) :
    (finishParse s r).1.pending = s.pending.filter (fun q => q.target != r.target) := by
  cases hl : lookupView s r.target <;> simp [finishParse, hl]

theorem finishParse_views (s : Scheduler) (r : ParseRequest) :
    (finishParse s r).1.views = s.views ∨
      (finishParse s r).1.views = deliverResult s.views r := by
  cases hl : lookupView s r.target <;> simp [finishParse, hl]

theorem mem_deliverResult (views : List (Nat × MarkdownView)) (r : ParseRequest)
    (p : Nat × MarkdownView) (h : p ∈ deliverResult views r) :
    ∃ q ∈ views, p.1 = q.1 ∧
      (p.2 = q.2 ∨
        (q.1 = r.target ∧ p.2 = completeParse q.2 (parse_markdown r.text none none))) := by
  unfold deliverResult at h
  rcases List.mem_map.mp h with ⟨q, hq, hfq⟩
  by_cases hqt : (q.1 == r.target) = true
  · refine ⟨q, hq, ?_⟩
    rw [if_pos hqt] at hfq
    rw [← hfq]
    exact ⟨rfl, Or.inr ⟨beq_iff_eq.mp hqt, rfl⟩⟩
  · refine ⟨q, hq, ?_⟩
    rw [if_neg hqt] at hfq
    rw [← hfq]
    exact ⟨rfl, Or.inl rfl⟩

theorem dropView_views (s : Scheduler) (id : Nat) :
    (dropView s id).views = s.views.filter (fun p => p.1 != id) := rfl

theorem dropView_pending (s : Scheduler) (id : Nat) :
    (dropView s id).pending = s.pending := rfl

theorem freshIds_step (s t : Scheduler) (hstep : SchedStep s t) (hf : FreshIds s) :
    FreshIds t := by
  obtain ⟨hv, hp⟩ := hf
  cases hstep with
  | request text =>
    constructor
    · intro p hmem
      rw [requestParse_views] at hmem
      rw [requestParse_nextId]
      rcases List.mem_cons.mp hmem with h | h
      · rw [h]; exact Nat.lt_succ_self _
      · exact Nat.lt_succ_of_lt (hv p h)
    · intro r hmem
      rw [requestParse_pending] at hmem
      rw [requestParse_nextId]
      rcases List.mem_cons.mp hmem with h | h
      · rw [h]; exact Nat.lt_succ_self _
      · exact Nat.lt_succ_of_lt (hp r h)
  | finish r hr =>
    constructor
    · intro p hmem
      rw [finishParse_nextId]
      rcases finishParse_views s r with hcase | hcase
      · rw [hcase] at hmem; exact hv p hmem
      · rw [hcase] at hmem
        rcases mem_deliverResult _ _ _ hmem with ⟨q, hq, hfst, _⟩
        rw [hfst]; exact hv q hq
    · intro q hmem
      rw [finishParse_nextId]
      rw [finishParse_pending] at hmem
      exact hp q (List.mem_of_mem_filter hmem)
  | drop id =>
    constructor
    · intro p hmem
      rw [dropView_views] at hmem
      exact hv p (List.mem_of_mem_filter hmem)
    · intro r hmem
      rw [dropView_pending] at hmem
      exact hp r hmem

theorem nextId_mono (s t : Scheduler) (hstep : SchedStep s t) : s.nextId ≤ t.nextId := by
  cases hstep with
  | request text => rw [requestParse_nextId]; exact Nat.le_succ _
  | finish r hr => rw [finishParse_nextId]
  | drop id => exact Nat.le_refl _

theorem tracksId_step (id : Nat) (text : String) (s t : Scheduler)
    (hstep : SchedStep s t) (hid : id < s.nextId) (hf : FreshIds s)
    (ht : TracksId id text s) : TracksId id text t := by
  obtain ⟨hraw, hcont, hpend⟩ := ht
  cases hstep with
  | request text2 =>
    refine ⟨?_, ?_, ?_⟩
    · intro p hp hpid
      rw [requestParse_views] at hp
      rcases List.mem_cons.mp hp with h | h
      · rw [h] at hpid; exact absurd hpid.symm (Nat.ne_of_lt hid)
      · exact hraw p h hpid
    · intro p hp hpid
      rw [requestParse_views] at hp
      rcases List.mem_cons.mp hp with h | h
      · rw [h] at hpid; exact absurd hpid.symm (Nat.ne_of_lt hid)
      · exact hcont p h hpid
    · intro r hr hrt
      rw [requestParse_pending] at hr
      rcases List.mem_cons.mp hr with h | h
      · rw [h] at hrt; exact absurd hrt.symm (Nat.ne_of_lt hid)
      · exact hpend r h hrt
  | finish r hr =>
    refine ⟨?_, ?_, ?_⟩
    · intro p hp hpid
      rcases finishParse_views s r with hcase | hcase
      · rw [hcase] at hp; exact hraw p hp hpid
      · rw [hcase] at hp
        rcases mem_deliverResult _ _ _ hp with ⟨q, hq, hfst, hval | hval⟩
        · rw [hval]; exact hraw q hq (hfst ▸ hpid)
        · rw [hval.2, completeParse_raw_text]
          exact hraw q hq (hfst ▸ hpid)
    · intro p hp hpid
      rcases finishParse_views s r with hcase | hcase
      · rw [hcase] at hp; exact hcont p hp hpid
      · rw [hcase] at hp
        rcases mem_deliverResult _ _ _ hp with ⟨q, hq, hfst, hval | hval⟩
        · rw [hval]; exact hcont q hq (hfst ▸ hpid)
        · right
          rw [hval.2]
          have hrt : r.target = id := by rw [← hval.1, ← hfst]; exact hpid
          rw [hpend r hr hrt]
          rfl
    · intro q hq hqt
      rw [finishParse_pending] at hq
      exact hpend q (List.mem_of_mem_filter hq) hqt
  | drop id2 =>
    refine ⟨?_, ?_, ?_⟩
    · intro p hp hpid
      rw [dropView_views] at hp
      exact hraw p (List.mem_of_mem_filter hp) hpid
    · intro p hp hpid
      rw [dropView_views] at hp
      exact hcont p (List.mem_of_mem_filter hp) hpid
    · intro r hr hrt
      rw [dropView_pending] at hr
      exact hpend r hr hrt

theorem idInv_reach (id : Nat) (text : String) (s t : Scheduler)
    (h : ReachableFrom s t) (hid : id < s.nextId) (hf : FreshIds s)
    (ht : TracksId id text s) :
    id < t.nextId ∧ FreshIds t ∧ TracksId id text t := by
  induction h with
  | refl => exact ⟨hid, hf, ht⟩
  | step b c hreach hstep ih =>
    obtain ⟨hid2, hf2, ht2⟩ := ih
    exact ⟨Nat.lt_of_lt_of_le hid2 (nextId_mono _ _ hstep),
      freshIds_step _ _ hstep hf2, tracksId_step _ _ _ _ hstep hid2 hf2 ht2⟩

theorem schedReachable_fresh (s : Scheduler) (h : SchedReachable s) : FreshIds s := by
  unfold SchedReachable at h
  induction h with
  | refl =>
    exact ⟨fun p hp => absurd hp (List.not_mem_nil p),
      fun r hr => absurd hr (List.not_mem_nil r)⟩
  | step b c hreach hstep ih => exact freshIds_step _ _ hstep ih

theorem schedReachable_pending_once (s : Scheduler) (h : SchedReachable s) :
    ∀ id, s.pending.countP (fun r => r.target == id) ≤ 1 := by
  unfold SchedReachable at h
  have main : FreshIds s ∧ ∀ id, s.pending.countP (fun r => r.target == id) ≤ 1 := by
    induction h with
    | refl =>
      refine ⟨⟨fun p hp => absurd hp (List.not_mem_nil p),
        fun r hr => absurd hr (List.not_mem_nil r)⟩, ?_⟩
      intro id
      simp [Scheduler.init]
    | step b c hreach hstep ih =>
      obtain ⟨hf, hcnt⟩ := ih
      refine ⟨freshIds_step _ _ hstep hf, ?_⟩
      intro id
      cases hstep with
      | request text2 =>
        rw [requestParse_pending, List.countP_cons]
        by_cases hid : b.nextId = id
        · have hzero : b.pending.countP (fun r => r.target == id) = 0 := by
            rw [List.countP_eq_zero]
            intro r hr
            have hlt := hf.2 r hr
            rw [hid] at hlt
            simp [Nat.ne_of_lt hlt]
          rw [hzero]
          split <;> omega
        · have hne : (({ target := b.nextId, text := text2 } : ParseRequest).target == id)
              = false := by
            simp [hid]
          rw [hne]
          simpa using hcnt id
      | finish r hr2 =>
        rw [finishParse_pending]
        exact Nat.le_trans ((List.filter_sublist _).countP_le _) (hcnt id)
      | drop id2 =>
        rw [dropView_pending]
        exact hcnt id
  exact main.2

theorem renderChildren_length (bs : List Block) (ctx : RenderContext) :
    (renderChildren bs ctx).1.length = bs.length := by
  induction bs generalizing ctx with
  | nil => rfl
  | cons b bs ih => simp [renderChildren, ih]

theorem renderChildren_get (bs : List Block) (ctx : RenderContext) (i : Nat) :
    ((renderChildren bs ctx).1)[i]? =
      (bs[i]?).map (fun b => (render_markdown_block b (ctxAfter bs ctx i)).1) := by
  induction bs generalizing ctx i with
  | nil => simp [renderChildren]
  | cons b bs ih =>
    cases i with
    | zero => simp [renderChildren, ctxAfter]
    | succ i => simp [renderChildren, ctxAfter, ih]

theorem render_state_id (v : MarkdownView) : (MarkdownView.render v).2 = v := by
  cases hc : v.contents <;> simp [MarkdownView.render, hc]

theorem render_some (v : MarkdownView) (parsed : ParsedMarkdown)
    (h : v.contents = some parsed) :
    MarkdownView.render v =
      (RenderedElement.markdownPreview (renderChildren parsed.children RenderContext.new).1,
        v) := by
  unfold MarkdownView.render
  rw [h]

theorem render_none (v : MarkdownView) (h : v.contents = none) :
    MarkdownView.render v = (RenderedElement.emptyDiv, v) := by
  unfold MarkdownView.render
  rw [h]

/-! ## Claim theorems -/

/-- Claim C1: the task spawned by `MarkdownView::from` delivers the
parsed document to the view exactly once.  The task script holds
exactly one contents-writing step; every other step leaves the view
untouched; and the single delivery step sets `contents` to the parse
result of the captured text and takes (clears)
`parsing_markdown_task`. -/
theorem parse_task_delivers_exactly_once (text : String) (v : MarkdownView) :
    taskScript.countP (fun s => stepWritesContents s) = 1 ∧
    (∀ step : TaskStep, stepWritesContents step = false →
      applyTaskStep text step v = v) ∧
    (applyTaskStep text TaskStep.deliver v).contents
      = some (parse_markdown text none none) ∧
    (applyTaskStep text TaskStep.deliver v).parsing_markdown_task = none := by
  refine ⟨rfl, ?_, rfl, rfl⟩
  intro step hstep
  cases step with
  | bgParse => rfl
  | deliver => exact absurd hstep (by simp [stepWritesContents])

/-- Witness for C1 at the text "a" and a freshly constructed view. -/
theorem parse_task_delivers_exactly_once_witness :
    stepWritesContents TaskStep.bgParse = false ∧
    (taskScript.countP (fun s => stepWritesContents s) = 1 ∧
      applyTaskStep "a" TaskStep.bgParse (MarkdownView.fromText "a" 0)
        = MarkdownView.fromText "a" 0 ∧
      (applyTaskStep "a" TaskStep.deliver (MarkdownView.fromText "a" 0)).contents
        = some (parse_markdown "a" none none) ∧
      (applyTaskStep "a" TaskStep.deliver
        (MarkdownView.fromText "a" 0)).parsing_markdown_task = none) :=
  ⟨rfl,
    (parse_task_delivers_exactly_once "a" (MarkdownView.fromText "a" 0)).1,
    (parse_task_delivers_exactly_once "a" (MarkdownView.fromText "a" 0)).2.1
      TaskStep.bgParse rfl,
    (parse_task_delivers_exactly_once "a" (MarkdownView.fromText "a" 0)).2.2.1,
    (parse_task_delivers_exactly_once "a" (MarkdownView.fromText "a" 0)).2.2.2⟩

/-- Claim C2: last-request-wins.  Requesting parse(A) and then
parse(B) before A completes, the consumer view created by the later
request observes only content derived from B: in every scheduler state
reachable from there, whatever that view holds is either undelivered
or exactly the parse of B, regardless of the order in which workers
finish.  (Each request creates its own consumer view whose raw text
never changes, so a stale delivery to it is impossible.) -/
theorem last_request_wins (s0 : Scheduler) (h0 : SchedReachable s0) (A B : String)
    (t : Scheduler)
    (ht : ReachableFrom (requestParse (requestParse s0 A) B) t)
    (v : MarkdownView)
    (hv : lookupView t (requestParse s0 A).nextId = some v) :
    v.raw_text = B ∧
      (v.contents = none ∨ v.contents = some (parse_markdown B none none)) := by
  have hf0 : FreshIds s0 := schedReachable_fresh s0 h0
  have hf1 : FreshIds (requestParse s0 A) :=
    freshIds_step _ _ (SchedStep.request s0 A) hf0
  have hf2 : FreshIds (requestParse (requestParse s0 A) B) :=
    freshIds_step _ _ (SchedStep.request (requestParse s0 A) B) hf1
  have hid : (requestParse s0 A).nextId
      < (requestParse (requestParse s0 A) B).nextId := by
    rw [requestParse_nextId (requestParse s0 A) B]
    exact Nat.lt_succ_self _
  have htr : TracksId (requestParse s0 A).nextId B
      (requestParse (requestParse s0 A) B) := by
    refine ⟨?_, ?_, ?_⟩
    · intro p hp hpid
      rw [requestParse_views] at hp
      rcases List.mem_cons.mp hp with h | h
      · rw [h]; rfl
      · exact absurd hpid (Nat.ne_of_lt (hf1.1 p h))
    · intro p hp hpid
      rw [requestParse_views] at hp
      rcases List.mem_cons.mp hp with h | h
      · rw [h]; left; rfl
      · exact absurd hpid (Nat.ne_of_lt (hf1.1 p h))
    · intro r hr hrt
      rw [requestParse_pending] at hr
      rcases List.mem_cons.mp hr with h | h
      · rw [h]
      · exact absurd hrt (Nat.ne_of_lt (hf1.2 r h))
  obtain ⟨_, _, htrt⟩ := idInv_reach _ B _ t ht hid hf2 htr
  unfold lookupView at hv
  rcases Option.map_eq_some'.mp hv with ⟨p, hfind, hsnd⟩
  have hmem : p ∈ t.views := List.mem_of_find?_eq_some hfind
  have hbeq : (p.1 == (requestParse s0 A).nextId) = true :=
    @List.find?_some _ (fun q => q.1 == (requestParse s0 A).nextId) p t.views hfind
  have hpid : p.1 = (requestParse s0 A).nextId := beq_iff_eq.mp hbeq
  exact ⟨hsnd ▸ htrt.1 p hmem hpid, hsnd ▸ htrt.2.1 p hmem hpid⟩

/-- Witness for C2: requests "a" then "b" from the initial scheduler;
the view of the later request holds raw text "b" and no stale
content. -/
theorem last_request_wins_witness :
    SchedReachable Scheduler.init ∧
    ReachableFrom (requestParse (requestParse Scheduler.init "a") "b")
      (requestParse (requestParse Scheduler.init "a") "b") ∧
    lookupView (requestParse (requestParse Scheduler.init "a") "b")
      (requestParse Scheduler.init "a").nextId = some (MarkdownView.fromText "b" 1) ∧
    ((MarkdownView.fromText "b" 1).raw_text = "b" ∧
      ((MarkdownView.fromText "b" 1).contents = none ∨
        (MarkdownView.fromText "b" 1).contents
          = some (parse_markdown "b" none none))) :=
  ⟨ReachableFrom.refl _, ReachableFrom.refl _, rfl,
    last_request_wins Scheduler.init (ReachableFrom.refl _) "a" "b" _
      (ReachableFrom.refl _) _ rfl⟩

/-- Claim C3: for every input string (and any optional path and
registry), `parse_markdown` terminates and returns a `ParsedMarkdown`
value.  The entry point is a total function into `ParsedMarkdown` —
there is no error or failure result in its type for any input,
malformed markdown included. -/
theorem parse_markdown_never_fails (text : String) (path : Option String)
    (registry : Option (List String)) :
    ∃ d : ParsedMarkdown, parse_markdown text path registry = d :=
  ⟨parse_markdown text path registry, rfl⟩

/-- Claim C4: every state a view reaches after construction is one of
the three observable conditions distinguished by the pair
(contents, parsing_markdown_task) — parse in progress (none, some),
parse complete (some, none), or no content yet (none, none) — and the
completion step always lands in the parse-complete state. -/
theorem view_has_three_observable_states (v : MarkdownView) (h : ViewReachable v) :
    ((v.contents.isNone = true ∧ v.parsing_markdown_task.isSome = true) ∨
     (v.contents.isSome = true ∧ v.parsing_markdown_task.isNone = true) ∨
     (v.contents.isNone = true ∧ v.parsing_markdown_task.isNone = true)) ∧
    (∀ c : ParsedMarkdown,
      (completeParse v c).contents.isSome = true ∧
      (completeParse v c).parsing_markdown_task.isNone = true) := by
  constructor
  · induction h with
    | constructed text tid => exact Or.inl ⟨rfl, rfl⟩
    | completed w c hw ih => exact Or.inr (Or.inl ⟨rfl, rfl⟩)
  · intro c
    exact ⟨rfl, rfl⟩

/-- Witness for C4 at a freshly constructed view. -/
theorem view_has_three_observable_states_witness :
    ViewReachable (MarkdownView.fromText "a" 0) ∧
    ((((MarkdownView.fromText "a" 0).contents.isNone = true ∧
        (MarkdownView.fromText "a" 0).parsing_markdown_task.isSome = true) ∨
      ((MarkdownView.fromText "a" 0).contents.isSome = true ∧
        (MarkdownView.fromText "a" 0).parsing_markdown_task.isNone = true) ∨
      ((MarkdownView.fromText "a" 0).contents.isNone = true ∧
        (MarkdownView.fromText "a" 0).parsing_markdown_task.isNone = true)) ∧
      ((completeParse (MarkdownView.fromText "a" 0)
          (ParsedMarkdown.mk [])).contents.isSome = true ∧
        (completeParse (MarkdownView.fromText "a" 0)
          (ParsedMarkdown.mk [])).parsing_markdown_task.isNone = true)) :=
  ⟨ViewReachable.constructed "a" 0,
    (view_has_three_observable_states _ (ViewReachable.constructed "a" 0)).1,
    (view_has_three_observable_states _ (ViewReachable.constructed "a" 0)).2
      (ParsedMarkdown.mk [])⟩

/-- Claim C5: a render pass produces exactly one primitive per
top-level block, in document order: the output list has the same
length as `parsed.children`, its i-th element is the result of the one
`render_markdown_block` call on the i-th block (with the context
threaded in order), and the view's render pass is exactly this map
over `parsed.children` — no block skipped, duplicated or reordered. -/
theorem render_one_primitive_per_block (parsed : ParsedMarkdown) (ctx : RenderContext) :
    (renderChildren parsed.children ctx).1.length = parsed.children.length ∧
    (∀ i : Nat, ((renderChildren parsed.children ctx).1)[i]? =
      (parsed.children[i]?).map
        (fun b => (render_markdown_block b (ctxAfter parsed.children ctx i)).1)) ∧
    (∀ v : MarkdownView, v.contents = some parsed →
      (MarkdownView.render v).1 =
        RenderedElement.markdownPreview
          (renderChildren parsed.children RenderContext.new).1) := by
  refine ⟨renderChildren_length _ _, fun i => renderChildren_get _ _ i, ?_⟩
  intro v hv
  rw [render_some v parsed hv]

/-- Witness for C5 at an empty document and a view holding it. -/
theorem render_one_primitive_per_block_witness :
    (MarkdownView.mk "" (some (ParsedMarkdown.mk [])) none).contents
        = some (ParsedMarkdown.mk []) ∧
    ((renderChildren (ParsedMarkdown.mk []).children RenderContext.new).1.length
        = (ParsedMarkdown.mk []).children.length ∧
      (MarkdownView.render (MarkdownView.mk "" (some (ParsedMarkdown.mk [])) none)).1 =
        RenderedElement.markdownPreview
          (renderChildren (ParsedMarkdown.mk []).children RenderContext.new).1) :=
  ⟨rfl,
    (render_one_primitive_per_block (ParsedMarkdown.mk []) RenderContext.new).1,
    (render_one_primitive_per_block (ParsedMarkdown.mk []) RenderContext.new).2.2 _ rfl⟩

/-- Claim C6: a failure on the asynchronous delivery path is the
explicit error value returned by the delivery task (the result of
updating the view), never silently swallowed, and leaves all views
untouched — the parsing worker does not crash.  Dropping the consumer
before the parse completes leaves the in-flight request pending; the
task later observes the view is gone and discards its result. -/
theorem delivery_failure_is_explicit (s : Scheduler) (r : ParseRequest)
    (h : lookupView s r.target = none) :
    (finishParse s r).2 = Except.error "view released" ∧
    (finishParse s r).1.views = s.views ∧
    (∀ id, lookupView (dropView s id) id = none ∧
      (dropView s id).pending = s.pending) := by
  refine ⟨?_, ?_, ?_⟩
  · simp [finishParse, h]
  · simp [finishParse, h]
  · intro id
    refine ⟨?_, rfl⟩
    unfold lookupView
    rw [dropView_views]
    have hfind : (s.views.filter (fun p => p.1 != id)).find? (fun p => p.1 == id)
        = none := by
      rw [List.find?_eq_none]
      intro x hx
      have hne := (List.mem_filter.mp hx).2
      simp only [bne_iff_ne, ne_eq] at hne
      simp only [beq_iff_eq]
      exact hne
    rw [hfind]
    rfl

/-- Witness for C6: the view of a request is dropped, then the parse
completes; the delivery reports the explicit error. -/
theorem delivery_failure_is_explicit_witness :
    lookupView (dropView (requestParse Scheduler.init "a") 0)
        (ParseRequest.mk 0 "a").target = none ∧
    ((finishParse (dropView (requestParse Scheduler.init "a") 0)
        (ParseRequest.mk 0 "a")).2 = Except.error "view released" ∧
      (finishParse (dropView (requestParse Scheduler.init "a") 0)
        (ParseRequest.mk 0 "a")).1.views
        = (dropView (requestParse Scheduler.init "a") 0).views ∧
      (lookupView (dropView (dropView (requestParse Scheduler.init "a") 0) 1) 1 = none ∧
        (dropView (dropView (requestParse Scheduler.init "a") 0) 1).pending
          = (dropView (requestParse Scheduler.init "a") 0).pending)) :=
  ⟨rfl,
    (delivery_failure_is_explicit (dropView (requestParse Scheduler.init "a") 0)
      (ParseRequest.mk 0 "a") rfl).1,
    (delivery_failure_is_explicit (dropView (requestParse Scheduler.init "a") 0)
      (ParseRequest.mk 0 "a") rfl).2.1,
    (delivery_failure_is_explicit (dropView (requestParse Scheduler.init "a") 0)
      (ParseRequest.mk 0 "a") rfl).2.2 1⟩

/-- Claim C7: the render context is created fresh per render pass and
discarded after it: the pass leaves the view state unchanged (no
context is retained in `MarkdownView`, which has no context field), a
repeated pass yields the same output, and the output of a pass is
computed from `RenderContext.new`. -/
theorem render_context_fresh_per_pass (v : MarkdownView) :
    (MarkdownView.render v).2 = v ∧
    (MarkdownView.render ((MarkdownView.render v).2)).1 = (MarkdownView.render v).1 ∧
    (∀ parsed : ParsedMarkdown, v.contents = some parsed →
      (MarkdownView.render v).1 =
        RenderedElement.markdownPreview
          (renderChildren parsed.children RenderContext.new).1) := by
  refine ⟨render_state_id v, ?_, ?_⟩
  · rw [render_state_id v]
  · intro parsed hp
    rw [render_some v parsed hp]

/-- Witness for C7 at a view holding an empty document. -/
theorem render_context_fresh_per_pass_witness :
    (MarkdownView.mk "" (some (ParsedMarkdown.mk [])) none).contents
        = some (ParsedMarkdown.mk []) ∧
    ((MarkdownView.render (MarkdownView.mk "" (some (ParsedMarkdown.mk [])) none)).2
        = MarkdownView.mk "" (some (ParsedMarkdown.mk [])) none ∧
      (MarkdownView.render (MarkdownView.mk "" (some (ParsedMarkdown.mk [])) none)).1 =
        RenderedElement.markdownPreview
          (renderChildren (ParsedMarkdown.mk []).children RenderContext.new).1) :=
  ⟨rfl,
    (render_context_fresh_per_pass _).1,
    (render_context_fresh_per_pass _).2.2 _ rfl⟩

/-- Claim C8: `MarkdownView::from` returns without waiting for the
parse: the returned view carries the supplied text as `raw_text`, no
contents, and the in-flight task; and in every reachable scheduler
state at most one parse task is in flight per view. -/
theorem from_returns_before_parse (text : String) (tid : Nat) :
    ((MarkdownView.fromText text tid).raw_text = text ∧
      (MarkdownView.fromText text tid).contents = none ∧
      (MarkdownView.fromText text tid).parsing_markdown_task = some tid) ∧
    (∀ s : Scheduler, SchedReachable s →
      ∀ id : Nat, s.pending.countP (fun r => r.target == id) ≤ 1) :=
  ⟨⟨rfl, rfl, rfl⟩, fun s hs id => schedReachable_pending_once s hs id⟩

/-- Witness for C8 at the text "a" and the initial scheduler. -/
theorem from_returns_before_parse_witness :
    SchedReachable Scheduler.init ∧
    (((MarkdownView.fromText "a" 0).raw_text = "a" ∧
      (MarkdownView.fromText "a" 0).contents = none ∧
      (MarkdownView.fromText "a" 0).parsing_markdown_task = some 0) ∧
      Scheduler.init.pending.countP (fun r => r.target == 0) ≤ 1) :=
  ⟨ReachableFrom.refl _,
    (from_returns_before_parse "a" 0).1,
    (from_returns_before_parse "a" 0).2 Scheduler.init (ReachableFrom.refl _) 0⟩

/-- Claim C9: when `contents` is none the render pass returns the bare
empty div and renders zero block primitives; blocks are rendered only
once contents have been delivered. -/
theorem render_empty_before_delivery (v : MarkdownView) (h : v.contents = none) :
    (MarkdownView.render v).1 = RenderedElement.emptyDiv ∧
    renderedBlockPrimCount (MarkdownView.render v).1 = 0 := by
  rw [render_none v h]
  exact ⟨rfl, rfl⟩

/-- Witness for C9 at a freshly constructed view. -/
theorem render_empty_before_delivery_witness :
    (MarkdownView.fromText "a" 0).contents = none ∧
    ((MarkdownView.render (MarkdownView.fromText "a" 0)).1 = RenderedElement.emptyDiv ∧
      renderedBlockPrimCount (MarkdownView.render (MarkdownView.fromText "a" 0)).1 = 0) :=
  ⟨rfl, render_empty_before_delivery _ rfl⟩

/-- Claim C10: the parse-completion update modifies only `contents`
and `parsing_markdown_task`; the only other field of `MarkdownView`,
`raw_text`, is unchanged by the delivery step. -/
theorem delivery_preserves_raw_text (v : MarkdownView) (c : ParsedMarkdown) :
    (completeParse v c).raw_text = v.raw_text ∧
    (completeParse v c).contents = some c ∧
    (completeParse v c).parsing_markdown_task = none :=
  ⟨rfl, rfl, rfl⟩
